import Mathlib

/-!
# Verification of the IT-stocks analysis pipeline

Shallow embedding of the six pipeline scripts
(`01_data_collection.py` … `06_plots.py`) and proofs of the spec claims.

Conventions:
* Machine floats carrying prices are modelled as rationals (`ℚ`); the claims
  under study are about selection / alignment / closed-form statistics, not
  about rounding.
* A pandas timestamp is a wall-clock value (an integer number of minutes)
  together with an optional UTC offset in minutes (`none` = timezone-naive).
* A missing value (`NaN` / `NaT`) is `Option.none`.
* pandas `sort_values` / `sort_index` is modelled by `List.insertionSort`
  (the source uses an unstable quicksort; no claim depends on tie order).
-/

/-- A pandas timestamp: wall-clock minutes plus optional tz offset (minutes).
`offset = none` models a timezone-naive timestamp. -/
structure Timestamp where
  wall : Int
  offset : Option Int
deriving DecidableEq, Repr

/-- `pd.to_datetime(..., utc=True)` on a single timestamp: a tz-aware value is
converted to the same instant in UTC (wall-clock shifted by the offset); a
naive value is localized as UTC unchanged. -/
def toDatetimeUtc (t : Timestamp) : Timestamp :=
  { wall := t.wall - t.offset.getD 0, offset := some 0 }

/-- `Series.dt.tz_convert(None)`: convert a tz-aware timestamp to UTC, then
drop the tz information.  (pandas raises on naive input; the read phase only
applies it to tz-aware values, for which `getD 0` is exact.) -/
def tzConvertNone (t : Timestamp) : Timestamp :=
  { wall := t.wall - t.offset.getD 0, offset := none }

/-- `_strip_tz` (02_balance_and_splits_check.py, lines 21-28), i.e.
`tz_localize(None)`: drop the tz information keeping the wall-clock value;
identity on naive timestamps. -/
def stripTz (t : Timestamp) : Timestamp :=
  { wall := t.wall, offset := none }

/-- The date normalization performed by the read phase of the Balancer
(02, lines 64-75): parse with `utc=True`, `tz_convert(None)`, and the final
`_strip_tz` safety pass; returns the resulting naive wall-clock value. -/
def readNormalizeDate (t : Timestamp) : Int :=
  (stripTz (tzConvertNone (toDatetimeUtc t))).wall

/-- One row of a raw CSV after the two coercions of the read phase:
`date = none` models a date cell `pd.to_datetime(..., errors="coerce")`
turns into `NaT`; `close = none` models a close cell
`pd.to_numeric(..., errors="coerce")` turns into `NaN`. -/
structure RawRow where
  date : Option Timestamp
  close : Option ℚ
deriving DecidableEq, Repr

instance : DecidableRel (fun (a b : Int × Option ℚ) => a.1 ≤ b.1) :=
  fun a b => Int.decLe a.1 b.1

instance : DecidableRel (fun (a b : Int × ℚ) => a.1 ≤ b.1) :=
  fun a b => Int.decLe a.1 b.1

/-- `read_raw_close` (02, lines 31-77), starting from the parsed cells:
keep rows with a parseable date, sort by date, normalize the dates to naive
(UTC) wall-clock values, keep rows with a numeric close, and return the
(date, close) series. -/
def read_raw_close (rows : List RawRow) : List (Int × ℚ) :=
  let dated : List (Int × Option ℚ) :=
    rows.filterMap (fun r => r.date.map (fun d => (readNormalizeDate d, r.close)))
  let sorted := dated.insertionSort (fun a b => a.1 ≤ b.1)
  sorted.filterMap (fun p => p.2.map (fun c => (p.1, c)))

/-- `DataFrame.__getitem__`-style lookup of the close value of series `s`
at date `d` (the column value produced for date `d` by the outer join). -/
def lookupClose (s : List (Int × ℚ)) (d : Int) : Option ℚ :=
  (s.find? (fun p => p.1 = d)).map (fun p => p.2)

/-- A date-indexed table as the Balancer sees it: one row per date, one
optional close value per company. -/
abbrev Table : Type := List (Int × List (Option ℚ))

/-- `pd.concat(..., axis=1)` of the four company series followed by the
window restriction (02, lines 113-121): the row index is the union of the
four date sets restricted to `[start, stop]`, and each row holds the four
lookups. -/
def outerJoinWindow (start stop : Int) (s1 s2 s3 s4 : List (Int × ℚ)) : Table :=
  let dates := (s1.map Prod.fst ++ s2.map Prod.fst ++ s3.map Prod.fst ++ s4.map Prod.fst).dedup
  (dates.filter (fun d => start ≤ d ∧ d ≤ stop)).map
    (fun d => (d, [lookupClose s1 d, lookupClose s2 d, lookupClose s3 d, lookupClose s4 d]))

/-- `close_df.dropna(how="any")` (02, line 125): keep only the rows in which
every company has a value. -/
def dropnaAny (t : Table) : Table :=
  t.filter (fun r => r.2.all Option.isSome)

/-- The balanced table of the Balancer before the invariant checks
(02, lines 111-125), as a function of the four raw files. -/
def balanceOfRaw (start stop : Int) (r1 r2 r3 r4 : List RawRow) : Table :=
  dropnaAny (outerJoinWindow start stop
    (read_raw_close r1) (read_raw_close r2) (read_raw_close r3) (read_raw_close r4))

/-- `balanced.isna().any().any()` (02, line 130). -/
def hasMissing (t : Table) : Bool :=
  t.any (fun r => r.2.any (fun v => v.isNone))

/-- `balanced.index.duplicated().any()` (02, line 132). -/
def hasDupDates (t : Table) : Bool :=
  decide (¬ (t.map Prod.fst).Nodup)

/-- The three invariant checks of the Balancer (02, lines 128-133), in source
order, with the source's error messages. -/
def postChecks (t : Table) : Except String Unit :=
  if t.isEmpty then
    Except.error "Balanced dataset is empty. Raw files may not overlap in dates."
  else if hasMissing t then
    Except.error "Balanced dataset still has missing values."
  else if hasDupDates t then
    Except.error "Duplicate dates found in balanced dataset."
  else
    Except.ok ()

instance : DecidableRel (fun (a b : Int × List (Option ℚ)) => a.1 ≤ b.1) :=
  fun a b => Int.decLe a.1 b.1

/-- `balanced.sort_index()` (02, line 135) applied to the balanced table:
the table the Balancer writes out. -/
def balancerOutputTable (start stop : Int) (r1 r2 r3 r4 : List RawRow) : Table :=
  (balanceOfRaw start stop r1 r2 r3 r4).insertionSort (fun a b => a.1 ≤ b.1)

/-- A row of the split-events report (02, lines 100-106).  The split ratio
column is modelled by `factor`; the event date is truncated to a day number
by `pd.Timestamp(dt).date()`. -/
structure SplitRow where
  company : String
  ticker : String
  splitDay : Int
  factor : ℚ
deriving DecidableEq, Repr

/-- `check_splits` (02, lines 80-108): for each ticker the source returns a
split history (a series of timestamp-indexed ratios, here a given input
rather than a network call); empty histories are skipped, event dates are
made naive with `_strip_tz` (wall-clock preserved), and events inside the
closed window are reported. -/
def check_splits (histories : List (String × String × List (Timestamp × ℚ)))
    (start stop : Int) : List SplitRow :=
  histories.flatMap (fun h =>
    if h.2.2.isEmpty then []
    else
      ((h.2.2.map (fun p => ((stripTz p.1).wall, p.2))).filter
          (fun p => start ≤ p.1 ∧ p.1 ≤ stop)).map
        (fun p => { company := h.1, ticker := h.2.1,
                    splitDay := Int.fdiv p.1 1440, factor := p.2 }))

/-- A file written by a pipeline stage, with its content. -/
inductive FileWrite where
  | rawCsv (name : String) (rows : List (Int × ℚ))
  | balancedCsv (rows : Table)
  | balancedXlsx (rows : Table)
  | splitsCsv (rows : List SplitRow)
deriving DecidableEq

/-- The Balancer's `main` (02, lines 111-149) as a trace: the list of file
writes it performs in program order, plus the fatal error message if it
aborts.  The invariant checks run before any write; the splits report is
written only when non-empty. -/
def balancerRun (start stop : Int) (r1 r2 r3 r4 : List RawRow)
    (histories : List (String × String × List (Timestamp × ℚ))) :
    List FileWrite × Option String :=
  let balanced := balanceOfRaw start stop r1 r2 r3 r4
  match postChecks balanced with
  | Except.error e => ([], some e)
  | Except.ok _ =>
    let sorted := balanced.insertionSort (fun a b => a.1 ≤ b.1)
    let splits := check_splits histories start stop
    ([FileWrite.balancedCsv sorted, FileWrite.balancedXlsx sorted] ++
      (if splits.isEmpty then [] else [FileWrite.splitsCsv splits]), none)

/-- The content of the balanced-table writes in a write trace. -/
def balancedWrites (ws : List FileWrite) : List Table :=
  ws.filterMap (fun w =>
    match w with
    | FileWrite.balancedCsv t => some t
    | FileWrite.balancedXlsx t => some t
    | _ => none)

/-- The fixed company → ticker map of the Collector (01, lines 9-14);
Python dicts preserve insertion order. -/
def TICKERS : List (String × String) :=
  [("HCL", "HCLTECH.NS"), ("Infosys", "INFY.NS"), ("TCS", "TCS.NS"), ("Wipro", "WIPRO.NS")]

/-- The shape of a `yf.download` result after `reset_index` (01, lines 21-34):
which of the candidate columns are present, and the (Date, Close) rows. -/
structure DownloadResult where
  hasDateCol : Bool
  hasIndexCol : Bool
  hasCloseCol : Bool
  rows : List (Int × ℚ)
deriving DecidableEq, Repr

/-- One iteration of the Collector's loop body (01, lines 21-52): the checks
in source order, then the write of the per-company raw file (rows sorted by
date). -/
def collectorStep (name tkr : String) (res : DownloadResult) : Except String FileWrite :=
  if res.rows.isEmpty then
    Except.error ("No data returned for " ++ name ++ " (" ++ tkr ++ ").")
  else if !res.hasDateCol && !res.hasIndexCol then
    Except.error ("Could not find Date column for " ++ name ++ " download output.")
  else if !res.hasCloseCol then
    Except.error ("Could not find Close column for " ++ name ++ " download output.")
  else
    Except.ok (FileWrite.rawCsv (name ++ "_raw.csv")
      (res.rows.insertionSort (fun a b => a.1 ≤ b.1)))

/-- The Collector's loop over a ticker list: each successful iteration writes
its file before the next iteration runs; a fatal iteration aborts the stage,
keeping the writes already performed. -/
def collectorLoop (fetch : String → DownloadResult) :
    List (String × String) → List FileWrite × Option String
  | [] => ([], none)
  | p :: rest =>
    match collectorStep p.1 p.2 (fetch p.2) with
    | Except.error e => ([], some e)
    | Except.ok w =>
      let tail := collectorLoop fetch rest
      (w :: tail.1, tail.2)

/-- The Collector's `main` (01, lines 19-52). -/
def collectorRun (fetch : String → DownloadResult) : List FileWrite × Option String :=
  collectorLoop fetch TICKERS

/-- `Series.mode(dropna=True)` (pandas): the list of values attaining the
maximal multiplicity, in ascending order; empty only for an empty series.
The input list models the series after dropping missing values. -/
def mode_list (s : List ℚ) : List ℚ :=
  ((s.dedup).filter
    (fun v => s.count v = ((s.dedup).map (fun w => s.count w)).foldr max 0)).insertionSort
    (fun a b => a ≤ b)

/-- `safe_mode` (03, lines 17-25 and 04, lines 20-24): the smallest of the
modes (`float(m.min())`), or undefined (`NaN`, modelled as `none`) when
`mode()` returns nothing. -/
def safe_mode (s : List ℚ) : Option ℚ :=
  match mode_list s with
  | [] => none
  | v :: rest => some (rest.foldl min v)

/-- Sum of pairwise products over the zip of two equal-length vectors. -/
def dotQ (t y : List ℚ) : ℚ :=
  ((t.zip y).map (fun p => p.1 * p.2)).sum

/-- The degree-1 coefficient `np.polyfit(t, y, 1)` returns: the unique
least-squares solution of the normal equations, whose slope component is
`(n·Σty − Σt·Σy) / (n·Σt² − (Σt)²)`. -/
def polyfitSlope (t y : List ℚ) : ℚ :=
  ((t.length : ℚ) * dotQ t y - t.sum * y.sum) /
    ((t.length : ℚ) * dotQ t t - t.sum * t.sum)

/-- Modelled from the spec: "average daily trend slope obtained by ordinary
least-squares fit of price against elapsed whole days since the first
observed date, returning only the slope coefficient" — the textbook OLS
slope `Σ(tᵢ−t̄)(yᵢ−ȳ) / Σ(tᵢ−t̄)²`, to be compared with the source's
`np.polyfit` computation. -/
def olsSlopeSpec (t y : List ℚ) : ℚ :=
  let tbar := t.sum / (t.length : ℚ)
  let ybar := y.sum / (y.length : ℚ)
  (((t.zip y).map (fun p => (p.1 - tbar) * (p.2 - ybar))).sum) /
    ((t.map (fun a => (a - tbar) * (a - tbar))).sum)

/-- A calendar date, as carried by the parsed `Date` column of the balanced
CSV (a midnight timestamp). -/
structure SDate where
  year : Nat
  month : Nat
  day : Nat
deriving DecidableEq, Repr

/-- Day number of a civil date (days since 0000-03-01, Gregorian): the value
whose differences `(dates - dates[0]).days` computes for midnight
timestamps. -/
def daysFromCivil (dt : SDate) : Nat :=
  let y := if dt.month ≤ 2 then dt.year - 1 else dt.year
  let era := y / 400
  let yoe := y % 400
  let mp := (dt.month + 9) % 12
  let doy := (153 * mp + 2) / 5 + dt.day - 1
  let doe := yoe * 365 + yoe / 4 - yoe / 100 + doy
  era * 146097 + doe

/-- The elapsed-whole-days vector `t = (dates - dates[0]).days` (03, line 33
and 04, line 28), as rationals for the fit. -/
def elapsedDays (dates : List SDate) : List ℚ :=
  dates.map (fun d =>
    (((daysFromCivil d : Int) - (daysFromCivil (dates.headD ⟨0, 1, 1⟩) : Int) : Int) : ℚ))

/-- `average_slope_per_day` (03, lines 28-36): fit `price = a + b·t` with
`t` the whole days since the first date, return `b`. -/
def average_slope_per_day (dates : List SDate) (prices : List ℚ) : ℚ :=
  polyfitSlope (elapsedDays dates) prices

/-- `slope_rupees_per_day` (04, lines 27-31); identical computation. -/
def slope_rupees_per_day (dates : List SDate) (prices : List ℚ) : ℚ :=
  polyfitSlope (elapsedDays dates) prices

/-- `np.polyfit(t, y, 1)` including its failure modes: raises when `t` is
empty or when the vectors have different lengths (the `Option.none` cases);
otherwise returns the slope. -/
def polyfit1? (t y : List ℚ) : Option ℚ :=
  if t = [] ∨ t.length ≠ y.length then none else some (polyfitSlope t y)

/-- `Series.quantile(p)` with linear interpolation on the sorted values
(the pandas default).  Junk value 0 on an empty series (pandas returns
`NaN`, a value, not an error). -/
def quantileLinear (s : List ℚ) (p : ℚ) : ℚ :=
  let sorted := s.insertionSort (fun a b => a ≤ b)
  let n := s.length
  if n = 0 then 0
  else
    let h : ℚ := p * ((n : ℚ) - 1)
    let i := h.floor.toNat
    let a := sorted.getD i 0
    let b := sorted.getD (min (i + 1) (n - 1)) 0
    a + (b - a) * (h - (h.floor : ℚ))

/-- One row of the statistics tables (03, lines 56-72 and 04, lines 90-107).
The sample standard deviation `s.std(ddof=1)` is the square root of
`sampleVar`, irrational in general, so the row carries the variance;
likewise the coefficient of variation `SD/mean` is determined by
(`sampleVar`, `mean`) and `cvDefined` records the source's `mean != 0`
guard.  Junk value 0 stands for pandas `NaN` results (values, not errors). -/
structure StatRow where
  n : Nat
  mean : ℚ
  sampleVar : ℚ
  median : ℚ
  mode : Option ℚ
  minV : ℚ
  maxV : ℚ
  range : ℚ
  q1 : ℚ
  q2 : ℚ
  q3 : ℚ
  iqr : ℚ
  cvDefined : Bool
  slope : ℚ
deriving DecidableEq

/-- The per-company body of `compute_full_period_stats` (03, lines 39-72):
the series is the column after `dropna()`, every statistic is computed from
it, but the slope is fitted against the elapsed days of the WHOLE table
index (`df.index`), so `np.polyfit` raises — `none` — when the lengths
differ (or the index is empty). -/
def compute_company_stats (index : List SDate) (col : List (Option ℚ)) : Option StatRow :=
  let s := col.filterMap id
  let q1 := quantileLinear s (1/4)
  let q2 := quantileLinear s (2/4)
  let q3 := quantileLinear s (3/4)
  let mean := s.sum / (s.length : ℚ)
  let sVar := (s.map (fun x => (x - mean) * (x - mean))).sum / ((s.length : ℚ) - 1)
  match polyfit1? (elapsedDays index) s with
  | none => none
  | some b =>
    some { n := s.length, mean := mean, sampleVar := sVar,
           median := quantileLinear s (2/4), mode := safe_mode s,
           minV := (s.min?).getD 0, maxV := (s.max?).getD 0,
           range := (s.max?).getD 0 - (s.min?).getD 0,
           q1 := q1, q2 := q2, q3 := q3, iqr := q3 - q1,
           cvDefined := decide (mean ≠ 0), slope := b }

/-- The decimal digit characters, as produced by Python `str` on a
nonnegative integer. -/
def digitChar (n : Nat) : Char :=
  match n with
  | 0 => '0' | 1 => '1' | 2 => '2' | 3 => '3' | 4 => '4'
  | 5 => '5' | 6 => '6' | 7 => '7' | 8 => '8' | _ => '9'

/-- Decimal digits of `n`, most significant first, computed with explicit
fuel (structural recursion); `natStr` supplies enough fuel. -/
def natToDigitsAux : Nat → Nat → List Char
  | 0, _ => []
  | fuel + 1, n =>
    if n < 10 then [digitChar n]
    else natToDigitsAux fuel (n / 10) ++ [digitChar (n % 10)]

/-- Python `str(n)` for a natural number, as a list of characters. -/
def natStr (n : Nat) : List Char :=
  natToDigitsAux (n + 1) n

/-- The numeric value of a decimal digit character, or `none`. -/
def digitVal? (c : Char) : Option Nat :=
  if c = '0' then some 0 else if c = '1' then some 1
  else if c = '2' then some 2 else if c = '3' then some 3
  else if c = '4' then some 4 else if c = '5' then some 5
  else if c = '6' then some 6 else if c = '7' then some 7
  else if c = '8' then some 8 else if c = '9' then some 9 else none

/-- Left-to-right accumulation of a digit string's value; `none` on the
first non-digit. -/
def digitsToNatAux : List Char → Nat → Option Nat
  | [], acc => some acc
  | c :: cs, acc =>
    match digitVal? c with
    | none => none
    | some d => digitsToNatAux cs (acc * 10 + d)

/-- Python `int(s)` restricted to plain digit strings (the only shape the
quarter labels produce): the value, or `none` (a `ValueError`) when `s` is
empty or contains a non-digit. -/
def digitsToNat? (s : List Char) : Option Nat :=
  if s.isEmpty then none else digitsToNatAux s 0

/-- Python `q.split("_")` specialised to the underscore separator. -/
def splitOnUnderscore : List Char → List (List Char)
  | [] => [[]]
  | c :: rest =>
    if c = '_' then [] :: splitOnUnderscore rest
    else
      match splitOnUnderscore rest with
      | [] => [[c]]
      | g :: gs => (c :: g) :: gs

/-- Python `qpart.replace("Q", "")`: remove every 'Q'. -/
def removeQ (s : List Char) : List Char :=
  s.filter (fun c => c ≠ 'Q')

/-- The bucket number of `make_4month_quarters` (04, line 41 and 05,
line 16): `((month - 1) // 4) + 1`. -/
def bucketNum (m : Nat) : Nat :=
  (m - 1) / 4 + 1

/-- The quarter label `f"{y}_Q{qn}"` (04, line 43). -/
def quarterLabel (y qn : Nat) : List Char :=
  natStr y ++ '_' :: 'Q' :: natStr qn

/-- `make_4month_quarters` (04, lines 34-44) on a single date: the label of
the date's (year, 4-month-bucket). -/
def make_4month_quarters (d : SDate) : List Char :=
  quarterLabel d.year (bucketNum d.month)

/-- `_quarter_sort_key` (06, lines 14-18): split the label on '_', parse the
year, strip the 'Q' and parse the bucket number.  `none` models the
exceptions (`split` destructuring or `int()` failing). -/
def quarterSortKey (q : List Char) : Option (Nat × Nat) :=
  match splitOnUnderscore q with
  | [ys, qp] =>
    match digitsToNat? ys, digitsToNat? (removeQ qp) with
    | some y, some qn => some (y, qn)
    | _, _ => none
  | _ => none

/-- The rows of the balanced table belonging to bucket `q`
(04, lines 73-74): `df[df["Quarter"] == q]`. -/
def bucketRows (table : List (SDate × List ℚ)) (q : List Char) : List (SDate × List ℚ) :=
  table.filter (fun r => make_4month_quarters r.1 = q)

/-- Column `j` of a row of the quarterly table (company columns, in order). -/
def colVal (j : Nat) (r : SDate × List ℚ) : ℚ :=
  r.2.getD j 0

/-- The slope statistic the quarterly stage computes for bucket `q` and
company column `j` (04, lines 73-88): `slope_rupees_per_day(df_q.index, s)`
with `df_q` the bucket's rows. -/
def quarterlySlope (table : List (SDate × List ℚ)) (q : List Char) (j : Nat) : ℚ :=
  let dq := bucketRows table q
  slope_rupees_per_day (dq.map Prod.fst) (dq.map (colVal j))


/-! ## Helper lemmas -/

theorem foldl_min_mem (rest : List ℚ) : ∀ v : ℚ, rest.foldl min v ∈ v :: rest := by
  induction rest with
  | nil => intro v; simp
  | cons x xs ih =>
    intro v
    rw [List.foldl_cons]
    rcases List.mem_cons.mp (ih (min v x)) with h | h
    · rcases min_choice v x with hm | hm
      · exact List.mem_cons.mpr (Or.inl (h.trans hm))
      · exact List.mem_cons.mpr (Or.inr (List.mem_cons.mpr (Or.inl (h.trans hm))))
    · exact List.mem_cons.mpr (Or.inr (List.mem_cons.mpr (Or.inr h)))

theorem foldl_min_le (rest : List ℚ) : ∀ v x : ℚ, x ∈ v :: rest → rest.foldl min v ≤ x := by
  induction rest with
  | nil =>
    intro v x hx
    rcases List.mem_cons.mp hx with h | h
    · rw [h]; exact le_refl v
    · exact absurd h (List.not_mem_nil x)
  | cons y ys ih =>
    intro v x hx
    rw [List.foldl_cons]
    rcases List.mem_cons.mp hx with h | h
    · rw [h]
      exact le_trans (ih (min v y) (min v y) (List.mem_cons_self _ _)) (min_le_left _ _)
    · rcases List.mem_cons.mp h with h' | h'
      · rw [h']
        exact le_trans (ih (min v y) (min v y) (List.mem_cons_self _ _)) (min_le_right _ _)
      · exact ih (min v y) x (List.mem_cons.mpr (Or.inr h'))

theorem foldr_max_le_of_mem (l : List Nat) : ∀ x ∈ l, x ≤ l.foldr max 0 := by
  induction l with
  | nil => intro x hx; simp at hx
  | cons y ys ih =>
    intro x hx
    rcases List.mem_cons.mp hx with h | h
    · subst h; exact le_max_left _ _
    · exact le_trans (ih x h) (le_max_right _ _)

theorem foldr_max_zero_or_mem (l : List Nat) : l.foldr max 0 = 0 ∨ l.foldr max 0 ∈ l := by
  induction l with
  | nil => simp
  | cons y ys ih =>
    rcases max_choice y (ys.foldr max 0) with hm | hm
    · right; simp [List.foldr_cons, hm]
    · rcases ih with h0 | hmem
      · simp [List.foldr_cons, hm, h0]
      · right; rw [List.foldr_cons, hm]; exact List.mem_cons.mpr (Or.inr hmem)

theorem length_filterMap_id_eq_iff (col : List (Option ℚ)) :
    (col.filterMap id).length = col.length ↔ ∀ v ∈ col, v ≠ none := by
  induction col with
  | nil => simp
  | cons v vs ih =>
    cases v with
    | none =>
      have hle := List.length_filterMap_le (id : Option ℚ → Option ℚ) vs
      constructor
      · intro h
        rw [show List.filterMap id (none :: vs) = List.filterMap id vs from rfl,
          List.length_cons] at h
        exact absurd h (by omega)
      · intro h
        exact absurd rfl (h none (List.mem_cons_self _ _))
    | some a =>
      rw [show List.filterMap id (some a :: vs) = a :: List.filterMap id vs from rfl,
        List.length_cons, List.length_cons]
      constructor
      · intro h v hv
        rcases List.mem_cons.mp hv with h' | h'
        · rw [h']; simp
        · exact (ih.mp (by omega)) v h'
      · intro h
        have h2 : (vs.filterMap id).length = vs.length :=
          ih.mpr (fun v hv => h v (List.mem_cons.mpr (Or.inr hv)))
        omega

theorem hasMissing_iff (t : Table) :
    hasMissing t = true ↔ ∃ r ∈ t, (none : Option ℚ) ∈ r.2 := by
  simp only [hasMissing, List.any_eq_true, Option.isNone_iff_eq_none]
  constructor
  · rintro ⟨r, hr, v, hv, rfl⟩; exact ⟨r, hr, hv⟩
  · rintro ⟨r, hr, hv⟩; exact ⟨r, hr, none, hv, rfl⟩

theorem hasDupDates_iff (t : Table) :
    hasDupDates t = true ↔ ¬ (t.map Prod.fst).Nodup := by
  simp [hasDupDates]

/-! ## Claim C3 -/

/-- C3 (counterexample): a tz-aware raw timestamp with wall-clock 600 minutes
and offset +330 minutes is normalized by the Balancer's read phase to the
naive wall-clock 270, not 600 — the claim that the produced naive wall-clock
equals the original local wall-clock is false. -/
theorem c3_counterexample :
    readNormalizeDate { wall := 600, offset := some 330 } = 270
    ∧ (270 : Int) ≠ 600 := by
  constructor
  · rfl
  · decide

/-- C3 (amended): for every timezone-aware timestamp, the Balancer's read
phase (`to_datetime(..., utc=True)` followed by `tz_convert(None)`) produces
a timezone-naive timestamp whose wall-clock equals the UTC wall-clock of the
instant, `wall − offset` — the instant is converted, the offset is not merely
dropped.  The `_strip_tz` helper alone, by contrast, does drop the offset
keeping the wall-clock. -/
theorem c3_read_phase_converts_to_utc (t : Timestamp) (o : Int) (h : t.offset = some o) :
    readNormalizeDate t = t.wall - o
    ∧ (stripTz t).wall = t.wall ∧ (stripTz t).offset = none := by
  refine ⟨?_, rfl, rfl⟩
  simp [readNormalizeDate, stripTz, tzConvertNone, toDatetimeUtc, h]

/-- Witness for C3: the amended theorem evaluated at the concrete tz-aware
timestamp (wall 600, offset +330). -/
theorem c3_witness :
    readNormalizeDate { wall := 600, offset := some 330 } = 600 - 330 :=
  (c3_read_phase_converts_to_utc { wall := 600, offset := some 330 } 330 rfl).1

/-! ## Claim C6 -/

/-- C6: the Balancer's post-condition block fails with a fatal error exactly
when the balanced table is empty, still contains a missing value, or has a
duplicate date — each condition with its specific message (tested in source
order) — and otherwise all three checks pass (`ok`) and the stage proceeds. -/
theorem c6_post_condition_checks (t : Table) :
    ((∃ e, postChecks t = Except.error e) ↔
      (t = [] ∨ (∃ r ∈ t, (none : Option ℚ) ∈ r.2) ∨ ¬ (t.map Prod.fst).Nodup))
    ∧ (postChecks t = Except.ok () ↔
      (t ≠ [] ∧ (∀ r ∈ t, (none : Option ℚ) ∉ r.2) ∧ (t.map Prod.fst).Nodup))
    ∧ (t = [] →
      postChecks t = Except.error "Balanced dataset is empty. Raw files may not overlap in dates.")
    ∧ (t ≠ [] → (∃ r ∈ t, (none : Option ℚ) ∈ r.2) →
      postChecks t = Except.error "Balanced dataset still has missing values.")
    ∧ (t ≠ [] → (∀ r ∈ t, (none : Option ℚ) ∉ r.2) → ¬ (t.map Prod.fst).Nodup →
      postChecks t = Except.error "Duplicate dates found in balanced dataset.") := by
  by_cases h1 : t = []
  · subst h1
    refine ⟨iff_of_true ⟨_, rfl⟩ (Or.inl rfl), ?_, fun _ => rfl,
      fun hne _ => absurd rfl hne, fun hne _ _ => absurd rfl hne⟩
    exact iff_of_false (by simp [postChecks]) (fun hh => hh.1 rfl)
  · have e1 : t.isEmpty = false := by
      cases t with
      | nil => exact absurd rfl h1
      | cons a l => rfl
    by_cases h2 : ∃ r ∈ t, (none : Option ℚ) ∈ r.2
    · have e2 : hasMissing t = true := (hasMissing_iff t).mpr h2
      have hpc : postChecks t = Except.error "Balanced dataset still has missing values." := by
        simp [postChecks, e1, e2]
      refine ⟨iff_of_true ⟨_, hpc⟩ (Or.inr (Or.inl h2)), ?_,
        fun he => absurd he h1, fun _ _ => hpc, ?_⟩
      · refine iff_of_false (by simp [hpc]) ?_
        rintro ⟨hne, hall, hnd⟩
        rcases h2 with ⟨r, hr, hnone⟩
        exact hall r hr hnone
      · intro _ hall _
        exfalso
        rcases h2 with ⟨r, hr, hnone⟩
        exact hall r hr hnone
    · have e2 : hasMissing t = false := by
        cases hh : hasMissing t with
        | false => rfl
        | true => exact absurd ((hasMissing_iff t).mp hh) h2
      by_cases h3 : (t.map Prod.fst).Nodup
      · have e3 : hasDupDates t = false := by
          simp [hasDupDates, h3]
        have hpc : postChecks t = Except.ok () := by
          simp [postChecks, e1, e2, e3]
        refine ⟨?_, ?_, fun he => absurd he h1, fun _ hm => absurd hm h2,
          fun _ _ hnd => absurd h3 hnd⟩
        · refine iff_of_false (by simp [hpc]) ?_
          rintro (he | hm | hnd)
          · exact h1 he
          · exact h2 hm
          · exact hnd h3
        · refine iff_of_true hpc ⟨h1, ?_, h3⟩
          intro r hr hnone
          exact h2 ⟨r, hr, hnone⟩
      · have e3 : hasDupDates t = true := (hasDupDates_iff t).mpr h3
        have hpc : postChecks t = Except.error "Duplicate dates found in balanced dataset." := by
          simp [postChecks, e1, e2, e3]
        refine ⟨iff_of_true ⟨_, hpc⟩ (Or.inr (Or.inr h3)), ?_,
          fun he => absurd he h1, fun _ hm => absurd hm h2, fun _ _ _ => hpc⟩
        refine iff_of_false (by simp [hpc]) ?_
        rintro ⟨hne, hall, hnd⟩
        exact h3 hnd

/-- Witness for C6: the checks evaluated at a concrete one-row table with a
missing value (second message) and at a concrete duplicate-date table. -/
theorem c6_witness :
    postChecks [((1 : Int), [(none : Option ℚ)])]
        = Except.error "Balanced dataset still has missing values."
    ∧ postChecks [((1 : Int), [(some 5 : Option ℚ)]), ((1 : Int), [(some 6 : Option ℚ)])]
        = Except.error "Duplicate dates found in balanced dataset." := by
  constructor
  · exact (c6_post_condition_checks [((1 : Int), [(none : Option ℚ)])]).2.2.2.1
      (by simp) ⟨((1 : Int), [(none : Option ℚ)]), by simp, by simp⟩
  · exact (c6_post_condition_checks
      [((1 : Int), [(some 5 : Option ℚ)]), ((1 : Int), [(some 6 : Option ℚ)])]).2.2.2.2
      (by simp) (by simp) (by simp)

/-! ## Claim C9 -/

/-- C9: the balanced table the Balancer writes (both renderings) and its
success/failure outcome are a deterministic function of the raw inputs and
the window alone — in particular they do not depend on the split-history
data fetched from the network, so re-running on the same raw files produces
the identical balanced output. -/
theorem c9_balanced_output_deterministic (start stop : Int) (r1 r2 r3 r4 : List RawRow)
    (h h' : List (String × String × List (Timestamp × ℚ))) :
    balancedWrites (balancerRun start stop r1 r2 r3 r4 h).1
      = balancedWrites (balancerRun start stop r1 r2 r3 r4 h').1
    ∧ (balancerRun start stop r1 r2 r3 r4 h).2 = (balancerRun start stop r1 r2 r3 r4 h').2 := by
  unfold balancerRun
  rcases hpc : postChecks (balanceOfRaw start stop r1 r2 r3 r4) with e | u
  · simp [hpc]
  · refine ⟨?_, by simp [hpc]⟩
    simp only [hpc, balancedWrites]
    by_cases hs : (check_splits h start stop).isEmpty <;>
      by_cases hs' : (check_splits h' start stop).isEmpty <;>
        simp [hs, hs', List.filterMap]

/-! ## Claim C7 -/

/-- A successful Collector iteration writes exactly the per-company raw file
with the date-sorted rows. -/
theorem collectorStep_ok (name tkr : String) (res : DownloadResult) (w : FileWrite)
    (h : collectorStep name tkr res = Except.ok w) :
    w = FileWrite.rawCsv (name ++ "_raw.csv")
      (res.rows.insertionSort (fun a b => a.1 ≤ b.1)) := by
  unfold collectorStep at h
  split_ifs at h
  all_goals simp_all

/-- The Collector's writes are always the files of an initial segment of the
ticker list (each iteration writes before the next begins); a fatal
iteration stops the loop, and a fully successful run covers the whole
list. -/
theorem collectorLoop_writes (fetch : String → DownloadResult) (L : List (String × String)) :
    ∃ k, k ≤ L.length ∧
      (collectorLoop fetch L).1 = (L.take k).map
        (fun p => FileWrite.rawCsv (p.1 ++ "_raw.csv")
          (((fetch p.2).rows).insertionSort (fun a b => a.1 ≤ b.1)))
      ∧ ((collectorLoop fetch L).2 = none → k = L.length) := by
  induction L with
  | nil => exact ⟨0, by simp [collectorLoop]⟩
  | cons p rest ih =>
    rcases hstep : collectorStep p.1 p.2 (fetch p.2) with e | w
    · refine ⟨0, by simp, ?_, ?_⟩
      · simp [collectorLoop, hstep]
      · intro hn
        rw [show collectorLoop fetch (p :: rest)
          = ([], some e) from by simp [collectorLoop, hstep]] at hn
        exact absurd hn (by simp)
    · rcases ih with ⟨k, hk, hw, hnone⟩
      refine ⟨k + 1, by simpa using Nat.succ_le_succ hk, ?_, ?_⟩
      · rw [show collectorLoop fetch (p :: rest)
          = (w :: (collectorLoop fetch rest).1, (collectorLoop fetch rest).2) from by
            simp [collectorLoop, hstep]]
        rw [List.take_succ_cons, List.map_cons, hw, collectorStep_ok p.1 p.2 (fetch p.2) w hstep]
      · intro hn
        rw [show collectorLoop fetch (p :: rest)
          = (w :: (collectorLoop fetch rest).1, (collectorLoop fetch rest).2) from by
            simp [collectorLoop, hstep]] at hn
        simp only [List.length_cons]
        have hk' := hnone hn
        omega

/-- C7 (counterexample): when the source has data for HCL but none for
Infosys, the Collector terminates with the fatal no-data error for Infosys
while HCL's raw file has already been written — the claim that a fatal stage
leaves none of its output files created is false. -/
theorem c7_counterexample :
    (collectorRun (fun tkr => if tkr = "HCLTECH.NS"
        then { hasDateCol := true, hasIndexCol := false, hasCloseCol := true, rows := [(0, 1)] }
        else { hasDateCol := true, hasIndexCol := false, hasCloseCol := true, rows := [] })).1
      = [FileWrite.rawCsv "HCL_raw.csv" [(0, 1)]]
    ∧ (collectorRun (fun tkr => if tkr = "HCLTECH.NS"
        then { hasDateCol := true, hasIndexCol := false, hasCloseCol := true, rows := [(0, 1)] }
        else { hasDateCol := true, hasIndexCol := false, hasCloseCol := true, rows := [] })).2
      = some "No data returned for Infosys (INFY.NS)." := by
  constructor
  · rfl
  · rfl

/-- C7 (amended): the Balancer writes no output at all when it terminates
with a fatal error; the Collector, however, writes one raw file per ticker
as it goes, so when it aborts (e.g. on the no-data error for a later ticker)
the files of the tickers already processed remain written — its write set is
always the files of an initial segment of the ticker list, the whole list
exactly when the run succeeds. -/
theorem c7_no_partial_output_amended :
    (∀ (start stop : Int) (r1 r2 r3 r4 : List RawRow)
        (h : List (String × String × List (Timestamp × ℚ))),
      (balancerRun start stop r1 r2 r3 r4 h).2.isSome →
        (balancerRun start stop r1 r2 r3 r4 h).1 = [])
    ∧ (∀ fetch : String → DownloadResult, ∃ k, k ≤ TICKERS.length ∧
        (collectorRun fetch).1 = (TICKERS.take k).map
          (fun p => FileWrite.rawCsv (p.1 ++ "_raw.csv")
            (((fetch p.2).rows).insertionSort (fun a b => a.1 ≤ b.1)))
        ∧ ((collectorRun fetch).2 = none → k = TICKERS.length)) := by
  constructor
  · intro start stop r1 r2 r3 r4 h hs
    unfold balancerRun at hs ⊢
    rcases hpc : postChecks (balanceOfRaw start stop r1 r2 r3 r4) with e | u
    · simp [hpc]
    · simp [hpc] at hs
  · intro fetch
    exact collectorLoop_writes fetch TICKERS

/-- Witness for C7: the amended theorem's Balancer part applied to concrete
empty raw inputs (which fail the non-empty post-condition). -/
theorem c7_witness :
    (balancerRun 0 0 [] [] [] [] []).1 = [] :=
  c7_no_partial_output_amended.1 0 0 [] [] [] [] [] (by decide)

/-! ## Claim C2 -/

/-- Membership in `mode_list`: exactly the values attaining the maximal
multiplicity. -/
theorem mem_mode_list_iff (s : List ℚ) (x : ℚ) :
    x ∈ mode_list s ↔
      x ∈ s.dedup ∧ s.count x = ((s.dedup).map (fun w => s.count w)).foldr max 0 := by
  unfold mode_list
  rw [(List.perm_insertionSort _ _).mem_iff]
  simp [List.mem_filter]

/-- A nonempty series has a nonempty mode list (the maximal multiplicity is
attained). -/
theorem mode_list_ne_nil_of_ne_nil (s : List ℚ) (hs : s ≠ []) :
    ∃ v rest, mode_list s = v :: rest := by
  have hex : ∃ w ∈ s.dedup,
      s.count w = ((s.dedup).map (fun w => s.count w)).foldr max 0 := by
    rcases foldr_max_zero_or_mem ((s.dedup).map (fun w => s.count w)) with h0 | hmem
    · rcases s with _ | ⟨a, as⟩
      · exact absurd rfl hs
      · have ha : (a :: as).count a
            ≤ (((a :: as).dedup).map (fun w => (a :: as).count w)).foldr max 0 :=
          foldr_max_le_of_mem _ _
            (List.mem_map.mpr ⟨a, List.mem_dedup.mpr (List.mem_cons_self a as), rfl⟩)
        rw [h0] at ha
        have hz : (a :: as).count a ≠ 0 := by
          intro hc
          exact (List.count_eq_zero.mp hc) (List.mem_cons_self a as)
        omega
    · rcases List.mem_map.mp hmem with ⟨w, hw, hcnt⟩
      exact ⟨w, hw, hcnt⟩
  rcases hex with ⟨w, hw, hcnt⟩
  have hwm : w ∈ mode_list s := (mem_mode_list_iff s w).mpr ⟨hw, hcnt⟩
  rcases hml : mode_list s with _ | ⟨v, rest⟩
  · rw [hml] at hwm
    exact absurd hwm (List.not_mem_nil w)
  · exact ⟨v, rest, rfl⟩

/-- C2 (counterexample): the series [10, 20, 30] has no repeated value (every
value occurs exactly once), yet `safe_mode` is defined on it and returns 10 —
the claim that the mode is undefined when the column has no repeated value is
false. -/
theorem c2_counterexample :
    safe_mode [10, 20, 30] = some 10
    ∧ (∀ v ∈ ([10, 20, 30] : List ℚ), ([10, 20, 30] : List ℚ).count v = 1) := by
  constructor
  · decide
  · decide

/-- C2 (amended): for every price column, `safe_mode` returns the smallest
value among the set of most-frequent values, and is undefined (`NaN`) exactly
when the column is empty after dropping missing values — for a column with no
repeated value every value is most frequent, so the result is the column
minimum, not undefined; on [10, 10, 20, 30] the mode is 10 as the claim
states. -/
theorem c2_mode_smallest_of_most_frequent :
    safe_mode [10, 10, 20, 30] = some 10
    ∧ (∀ s : List ℚ, (safe_mode s = none ↔ s = [])
      ∧ (∀ m, safe_mode s = some m → m ∈ s
        ∧ (∀ v ∈ s, s.count v ≤ s.count m)
        ∧ (∀ v ∈ s, s.count v = s.count m → m ≤ v))) := by
  constructor
  · decide
  · intro s
    constructor
    · constructor
      · intro hnone
        by_contra hne
        rcases mode_list_ne_nil_of_ne_nil s hne with ⟨v, rest, hcons⟩
        rw [safe_mode, hcons] at hnone
        exact absurd hnone (by simp)
      · intro hnil
        subst hnil
        rfl
    · intro m hm
      have hmem : m ∈ mode_list s := by
        rcases hml : mode_list s with _ | ⟨v, rest⟩
        · rw [safe_mode, hml] at hm
          exact absurd hm (by simp)
        · rw [safe_mode, hml] at hm
          have : rest.foldl min v = m := by
            simpa using hm
          rw [← this]
          exact foldl_min_mem rest v
      have hchar := (mem_mode_list_iff s m).mp hmem
      refine ⟨List.mem_dedup.mp hchar.1, ?_, ?_⟩
      · intro v hv
        rw [hchar.2]
        exact foldr_max_le_of_mem _ (s.count v)
          (List.mem_map.mpr ⟨v, List.mem_dedup.mpr hv, rfl⟩)
      · intro v hv hcnt
        have hvml : v ∈ mode_list s := (mem_mode_list_iff s v).mpr
          ⟨List.mem_dedup.mpr hv, hcnt.trans hchar.2⟩
        rcases hml : mode_list s with _ | ⟨w, rest⟩
        · rw [hml] at hvml
          exact absurd hvml (List.not_mem_nil v)
        · rw [safe_mode, hml] at hm
          have hfold : rest.foldl min w = m := by
            simpa using hm
          rw [hml] at hvml
          rw [← hfold]
          exact foldl_min_le rest w v hvml

/-- Witness for C2: the amended theorem's characterization applied to the
concrete series [10, 20, 30] and its computed mode 10. -/
theorem c2_witness :
    (10 : ℚ) ∈ ([10, 20, 30] : List ℚ)
    ∧ (∀ v ∈ ([10, 20, 30] : List ℚ),
        ([10, 20, 30] : List ℚ).count v ≤ ([10, 20, 30] : List ℚ).count 10)
    ∧ (∀ v ∈ ([10, 20, 30] : List ℚ),
        ([10, 20, 30] : List ℚ).count v = ([10, 20, 30] : List ℚ).count 10 → (10 : ℚ) ≤ v) :=
  (c2_mode_smallest_of_most_frequent.2 [10, 20, 30]).2 10 (by decide)

/-! ## Claim C8 -/

/-- C8: the Balancer's read phase keeps, up to the date sort, exactly the
raw rows whose date parses and whose close is numeric (with the date
normalized): a row with an unparseable date or non-numeric close is silently
dropped — never a stage failure, since the computation is total — and every
other row is retained. -/
theorem c8_malformed_rows_dropped (rows : List RawRow) :
    List.Perm (read_raw_close rows)
      (rows.filterMap (fun r =>
        match r.date, r.close with
        | some d, some c => some (readNormalizeDate d, c)
        | _, _ => none)) := by
  unfold read_raw_close
  have h1 := (List.perm_insertionSort (fun (a b : Int × Option ℚ) => a.1 ≤ b.1)
    (rows.filterMap (fun r => r.date.map (fun d => (readNormalizeDate d, r.close)))))
  have h2 := h1.filterMap (fun p : Int × Option ℚ => p.2.map (fun c => (p.1, c)))
  refine h2.trans ?_
  rw [List.filterMap_filterMap]
  have hfun : (fun r : RawRow =>
      ((fun r : RawRow => r.date.map (fun d => (readNormalizeDate d, r.close))) r).bind
        ((fun p : Int × Option ℚ => p.2.map (fun c => (p.1, c)))))
      = (fun r : RawRow =>
        match r.date, r.close with
        | some d, some c => some (readNormalizeDate d, c)
        | _, _ => none) := by
    funext r
    rcases hd : r.date with _ | d <;> rcases hc : r.close with _ | c <;> simp [hd, hc]
  rw [hfun]

/-! ## Claim C10 -/

/-- C10: the full-period statistics body pairs the whole table's date index
with the column after `dropna()`, so the row is computed without error
exactly when the index is non-empty and the column has no missing value
(given a rectangular table) — thus it is well-defined only under the
no-missing-values precondition, which the balanced input guarantees. -/
theorem c10_full_stats_well_defined (index : List SDate) (col : List (Option ℚ))
    (hlen : col.length = index.length) :
    (compute_company_stats index col).isSome ↔ (index ≠ [] ∧ ∀ v ∈ col, v ≠ none) := by
  have hmapl : (elapsedDays index).length = index.length := by
    unfold elapsedDays
    exact List.length_map _ _
  have hml : elapsedDays index = [] ↔ index = [] := by
    unfold elapsedDays
    simp
  have hle := List.length_filterMap_le (id : Option ℚ → Option ℚ) col
  have hiff : (compute_company_stats index col).isSome = true
      ↔ ¬ (elapsedDays index = []
            ∨ (elapsedDays index).length ≠ (col.filterMap id).length) := by
    by_cases hc : elapsedDays index = []
        ∨ (elapsedDays index).length ≠ (col.filterMap id).length
    · simp [compute_company_stats, polyfit1?, hc]
    · simp [compute_company_stats, polyfit1?, hc]
  rw [hiff]
  push_neg
  constructor
  · rintro ⟨hne, heq⟩
    refine ⟨fun hn => hne (hml.mpr hn), ?_⟩
    apply (length_filterMap_id_eq_iff col).mp
    omega
  · rintro ⟨hne, hall⟩
    refine ⟨fun he => hne (hml.mp he), ?_⟩
    have heq := (length_filterMap_id_eq_iff col).mpr hall
    omega

/-- Witness for C10: the statistics row of a one-row, no-missing-value table
is computed without error. -/
theorem c10_witness :
    (compute_company_stats [⟨2023, 1, 3⟩] [some 1]).isSome :=
  (c10_full_stats_well_defined [⟨2023, 1, 3⟩] [some 1] rfl).mpr (by decide)

/-! ## Claim C1 -/

/-- A lookup succeeds exactly when the date occurs in the series. -/
theorem lookupClose_isSome_iff (s : List (Int × ℚ)) (d : Int) :
    (lookupClose s d).isSome = true ↔ d ∈ s.map Prod.fst := by
  unfold lookupClose
  constructor
  · intro h
    rcases Option.isSome_iff_exists.mp h with ⟨c, hc⟩
    rcases Option.map_eq_some'.mp hc with ⟨p, hp, _⟩
    have hmem := List.mem_of_find?_eq_some hp
    have hpd := List.find?_some hp
    have : p.1 = d := by simpa using hpd
    exact List.mem_map.mpr ⟨p, hmem, this⟩
  · intro h
    rcases List.mem_map.mp h with ⟨p, hp, hpd⟩
    have hfs : (List.find? (fun p => decide (p.1 = d)) s).isSome = true := by
      rw [List.find?_isSome]
      exact ⟨p, hp, decide_eq_true hpd⟩
    rcases Option.isSome_iff_exists.mp hfs with ⟨q, hq⟩
    rw [hq]
    rfl

/-- The read phase never yields more rows than the raw file has. -/
theorem read_raw_close_length_le (rows : List RawRow) :
    (read_raw_close rows).length ≤ rows.length := by
  unfold read_raw_close
  calc ((((rows.filterMap (fun r => r.date.map (fun d => (readNormalizeDate d, r.close))))).insertionSort
          (fun a b => a.1 ≤ b.1)).filterMap (fun p => p.2.map (fun c => (p.1, c)))).length
      ≤ (((rows.filterMap (fun r => r.date.map (fun d => (readNormalizeDate d, r.close))))).insertionSort
          (fun a b => a.1 ≤ b.1)).length := List.length_filterMap_le _ _
    _ = ((rows.filterMap (fun r => r.date.map (fun d => (readNormalizeDate d, r.close))))).length :=
        (List.perm_insertionSort _ _).length_eq
    _ ≤ rows.length := List.length_filterMap_le _ _

/-- The dates of the balanced table are exactly the in-window dates at which
all four series have a value. -/
theorem mem_balanceOfRaw_dates (start stop : Int) (r1 r2 r3 r4 : List RawRow) (d : Int) :
    d ∈ (balanceOfRaw start stop r1 r2 r3 r4).map Prod.fst ↔
      (start ≤ d ∧ d ≤ stop
        ∧ (lookupClose (read_raw_close r1) d).isSome = true
        ∧ (lookupClose (read_raw_close r2) d).isSome = true
        ∧ (lookupClose (read_raw_close r3) d).isSome = true
        ∧ (lookupClose (read_raw_close r4) d).isSome = true) := by
  unfold balanceOfRaw dropnaAny outerJoinWindow
  constructor
  · intro hd
    rcases List.mem_map.mp hd with ⟨row, hrow, hfst⟩
    rcases List.mem_filter.mp hrow with ⟨hmem, hall⟩
    rcases List.mem_map.mp hmem with ⟨d', hd', heq⟩
    rcases List.mem_filter.mp hd' with ⟨_, hw⟩
    have hd'd : d' = d := by
      rw [← heq] at hfst
      exact hfst
    subst hd'd
    have hw' : start ≤ d' ∧ d' ≤ stop := by
      simpa using hw
    have hall' : ∀ v ∈ row.2, v.isSome = true := by
      intro v hv
      exact List.all_eq_true.mp hall v hv
    rw [← heq] at hall'
    refine ⟨hw'.1, hw'.2, ?_, ?_, ?_, ?_⟩
    · exact hall' _ (by simp)
    · exact hall' _ (by simp)
    · exact hall' _ (by simp)
    · exact hall' _ (by simp)
  · rintro ⟨hs, he, l1, l2, l3, l4⟩
    apply List.mem_map.mpr
    refine ⟨(d, [lookupClose (read_raw_close r1) d, lookupClose (read_raw_close r2) d,
      lookupClose (read_raw_close r3) d, lookupClose (read_raw_close r4) d]), ?_, rfl⟩
    apply List.mem_filter.mpr
    constructor
    · apply List.mem_map.mpr
      refine ⟨d, ?_, rfl⟩
      apply List.mem_filter.mpr
      refine ⟨?_, by simp [hs, he]⟩
      apply List.mem_dedup.mpr
      apply List.mem_append.mpr
      left
      apply List.mem_append.mpr
      left
      apply List.mem_append.mpr
      left
      exact (lookupClose_isSome_iff (read_raw_close r1) d).mp l1
    · simp [l1, l2, l3, l4]

/-- The balanced table has pairwise-distinct dates. -/
theorem balanceOfRaw_dates_nodup (start stop : Int) (r1 r2 r3 r4 : List RawRow) :
    ((balanceOfRaw start stop r1 r2 r3 r4).map Prod.fst).Nodup := by
  unfold balanceOfRaw dropnaAny outerJoinWindow
  apply List.Nodup.sublist (List.Sublist.map Prod.fst (List.filter_sublist _))
  rw [List.map_map]
  have : (Prod.fst ∘ fun d : Int =>
      (d, [lookupClose (read_raw_close r1) d, lookupClose (read_raw_close r2) d,
        lookupClose (read_raw_close r3) d, lookupClose (read_raw_close r4) d]))
      = fun d : Int => d := rfl
  rw [this]
  rw [List.map_id']
  exact List.Nodup.sublist (List.filter_sublist _) (List.nodup_dedup _)

/-- C1: the Balancer's output table contains exactly the dates inside the
closed window [start, stop] at which every one of the four companies has a
close value (inner-join / complete-case semantics); consequently its date
range lies inside the window and its row count is at most the minimum raw
row count across the four companies. -/
theorem c1_balanced_inner_join (start stop : Int) (r1 r2 r3 r4 : List RawRow)
    (_h1 : ((read_raw_close r1).map Prod.fst).Nodup)
    (_h2 : ((read_raw_close r2).map Prod.fst).Nodup)
    (_h3 : ((read_raw_close r3).map Prod.fst).Nodup)
    (_h4 : ((read_raw_close r4).map Prod.fst).Nodup) :
    (∀ d : Int, d ∈ (balancerOutputTable start stop r1 r2 r3 r4).map Prod.fst ↔
      (start ≤ d ∧ d ≤ stop
        ∧ (lookupClose (read_raw_close r1) d).isSome = true
        ∧ (lookupClose (read_raw_close r2) d).isSome = true
        ∧ (lookupClose (read_raw_close r3) d).isSome = true
        ∧ (lookupClose (read_raw_close r4) d).isSome = true))
    ∧ (balancerOutputTable start stop r1 r2 r3 r4).length
        ≤ min (min r1.length r2.length) (min r3.length r4.length) := by
  have hperm : List.Perm (balancerOutputTable start stop r1 r2 r3 r4)
      (balanceOfRaw start stop r1 r2 r3 r4) :=
    List.perm_insertionSort _ _
  constructor
  · intro d
    rw [(hperm.map Prod.fst).mem_iff]
    exact mem_balanceOfRaw_dates start stop r1 r2 r3 r4 d
  · have hnd := balanceOfRaw_dates_nodup start stop r1 r2 r3 r4
    have hlen1 : (balanceOfRaw start stop r1 r2 r3 r4).length ≤ r1.length := by
      have hsub : (balanceOfRaw start stop r1 r2 r3 r4).map Prod.fst
          ⊆ (read_raw_close r1).map Prod.fst := by
        intro d hd
        exact (lookupClose_isSome_iff _ d).mp
          ((mem_balanceOfRaw_dates start stop r1 r2 r3 r4 d).mp hd).2.2.1
      have := (List.subperm_of_subset hnd hsub).length_le
      rw [List.length_map, List.length_map] at this
      exact this.trans (read_raw_close_length_le r1)
    have hlen2 : (balanceOfRaw start stop r1 r2 r3 r4).length ≤ r2.length := by
      have hsub : (balanceOfRaw start stop r1 r2 r3 r4).map Prod.fst
          ⊆ (read_raw_close r2).map Prod.fst := by
        intro d hd
        exact (lookupClose_isSome_iff _ d).mp
          ((mem_balanceOfRaw_dates start stop r1 r2 r3 r4 d).mp hd).2.2.2.1
      have := (List.subperm_of_subset hnd hsub).length_le
      rw [List.length_map, List.length_map] at this
      exact this.trans (read_raw_close_length_le r2)
    have hlen3 : (balanceOfRaw start stop r1 r2 r3 r4).length ≤ r3.length := by
      have hsub : (balanceOfRaw start stop r1 r2 r3 r4).map Prod.fst
          ⊆ (read_raw_close r3).map Prod.fst := by
        intro d hd
        exact (lookupClose_isSome_iff _ d).mp
          ((mem_balanceOfRaw_dates start stop r1 r2 r3 r4 d).mp hd).2.2.2.2.1
      have := (List.subperm_of_subset hnd hsub).length_le
      rw [List.length_map, List.length_map] at this
      exact this.trans (read_raw_close_length_le r3)
    have hlen4 : (balanceOfRaw start stop r1 r2 r3 r4).length ≤ r4.length := by
      have hsub : (balanceOfRaw start stop r1 r2 r3 r4).map Prod.fst
          ⊆ (read_raw_close r4).map Prod.fst := by
        intro d hd
        exact (lookupClose_isSome_iff _ d).mp
          ((mem_balanceOfRaw_dates start stop r1 r2 r3 r4 d).mp hd).2.2.2.2.2
      have := (List.subperm_of_subset hnd hsub).length_le
      rw [List.length_map, List.length_map] at this
      exact this.trans (read_raw_close_length_le r4)
    rw [hperm.length_eq]
    exact le_min (le_min hlen1 hlen2) (le_min hlen3 hlen4)

/-- Witness for C1: the theorem applied to concrete one-row raw files sharing
one in-window date. -/
theorem c1_witness :
    (balancerOutputTable 0 10 [{ date := some ⟨1, none⟩, close := some 2 }]
        [{ date := some ⟨1, none⟩, close := some 3 }]
        [{ date := some ⟨1, none⟩, close := some 4 }]
        [{ date := some ⟨1, none⟩, close := some 5 }]).length
      ≤ min (min 1 1) (min 1 1) :=
  (c1_balanced_inner_join 0 10 _ _ _ _ (by decide) (by decide) (by decide) (by decide)).2

/-! ## Claim C5 -/

theorem dotQ_cons (x v : ℚ) (ts vs : List ℚ) :
    dotQ (x :: ts) (v :: vs) = x * v + dotQ ts vs := by
  simp [dotQ]

theorem sum_zip_sub (a b : ℚ) : ∀ (t y : List ℚ), t.length = y.length →
    ((t.zip y).map (fun p => (p.1 - a) * (p.2 - b))).sum
      = dotQ t y - a * y.sum - b * t.sum + (t.length : ℚ) * (a * b) := by
  intro t
  induction t with
  | nil =>
    intro y h
    have hy : y = [] := List.length_eq_zero.mp (by simpa using h.symm)
    subst hy
    simp [dotQ]
  | cons x ts ih =>
    intro y h
    rcases y with _ | ⟨v, vs⟩
    · simp at h
    · have hlen : ts.length = vs.length := by
        rw [List.length_cons, List.length_cons] at h
        omega
      have hih := ih vs hlen
      rw [List.zip_cons_cons, List.map_cons, List.sum_cons, hih, dotQ_cons,
        List.sum_cons, List.sum_cons, List.length_cons]
      push_cast
      ring

theorem sum_sq_sub (a : ℚ) : ∀ t : List ℚ,
    (t.map (fun x => (x - a) * (x - a))).sum
      = dotQ t t - 2 * a * t.sum + (t.length : ℚ) * (a * a) := by
  intro t
  induction t with
  | nil => simp [dotQ]
  | cons x ts ih =>
    rw [List.map_cons, List.sum_cons, ih, dotQ_cons, List.sum_cons, List.length_cons]
    push_cast
    ring

/-- The degree-1 `np.polyfit` slope coincides with the textbook OLS slope
`Σ(tᵢ−t̄)(yᵢ−ȳ) / Σ(tᵢ−t̄)²` for equal-length vectors. -/
theorem polyfit_eq_ols (t y : List ℚ) (hlen : t.length = y.length) :
    polyfitSlope t y = olsSlopeSpec t y := by
  rcases eq_or_ne t.length 0 with h0 | hn
  · have ht : t = [] := List.length_eq_zero.mp h0
    have hy : y = [] := List.length_eq_zero.mp (by omega)
    subst ht
    subst hy
    simp [polyfitSlope, olsSlopeSpec, dotQ]
  · have hnq : ((t.length : ℚ)) ≠ 0 := Nat.cast_ne_zero.mpr hn
    simp only [olsSlopeSpec, polyfitSlope]
    rw [← hlen]
    rw [sum_zip_sub (t.sum / (t.length : ℚ)) (y.sum / (t.length : ℚ)) t y hlen]
    rw [sum_sq_sub (t.sum / (t.length : ℚ)) t]
    have hA : dotQ t y - t.sum / (t.length : ℚ) * y.sum - y.sum / (t.length : ℚ) * t.sum
          + (t.length : ℚ) * (t.sum / (t.length : ℚ) * (y.sum / (t.length : ℚ)))
        = ((t.length : ℚ) * dotQ t y - t.sum * y.sum) / (t.length : ℚ) := by
      field_simp
      ring
    have hB : dotQ t t - 2 * (t.sum / (t.length : ℚ)) * t.sum
          + (t.length : ℚ) * (t.sum / (t.length : ℚ) * (t.sum / (t.length : ℚ)))
        = ((t.length : ℚ) * dotQ t t - t.sum * t.sum) / (t.length : ℚ) := by
      field_simp
      ring
    rw [hA, hB]
    rcases eq_or_ne ((t.length : ℚ) * dotQ t t - t.sum * t.sum) 0 with hz | hz
    · rw [hz]
      simp
    · rw [div_div_div_cancel_right₀ hnq]

/-- C5: for every company series the trend-slope statistic (computed with
`np.polyfit` degree 1) equals the ordinary-least-squares slope of close price
against elapsed whole days since the first observed date; and in the
quarterly stage the slope for a bucket is fitted against elapsed days whose
basis is the first date within that bucket (the bucket's own elapsed-days
vector starts at zero), not the global window start. -/
theorem c5_trend_slope_ols (dates : List SDate) (prices : List ℚ)
    (table : List (SDate × List ℚ)) (q : List Char) (j : Nat)
    (hlen : dates.length = prices.length) :
    average_slope_per_day dates prices = olsSlopeSpec (elapsedDays dates) prices
    ∧ quarterlySlope table q j
        = olsSlopeSpec (elapsedDays ((bucketRows table q).map Prod.fst))
            ((bucketRows table q).map (colVal j))
    ∧ (bucketRows table q ≠ [] →
        (elapsedDays ((bucketRows table q).map Prod.fst)).headD 1 = 0) := by
  refine ⟨?_, ?_, ?_⟩
  · unfold average_slope_per_day
    apply polyfit_eq_ols
    unfold elapsedDays
    rw [List.length_map, hlen]
  · unfold quarterlySlope slope_rupees_per_day
    apply polyfit_eq_ols
    unfold elapsedDays
    rw [List.length_map, List.length_map, List.length_map]
  · intro hq
    rcases hb : bucketRows table q with _ | ⟨r, rs⟩
    · exact absurd hb hq
    · simp [elapsedDays]

/-- Witness for C5: the theorem applied to a concrete two-day series and a
concrete one-bucket table. -/
theorem c5_witness :
    average_slope_per_day [⟨2023, 1, 3⟩, ⟨2023, 1, 4⟩] [1, 2]
        = olsSlopeSpec (elapsedDays [⟨2023, 1, 3⟩, ⟨2023, 1, 4⟩]) [1, 2]
    ∧ quarterlySlope [(⟨2023, 1, 3⟩, [1]), (⟨2023, 1, 4⟩, [2])] (quarterLabel 2023 1) 0
        = olsSlopeSpec
            (elapsedDays ((bucketRows [(⟨2023, 1, 3⟩, [1]), (⟨2023, 1, 4⟩, [2])]
              (quarterLabel 2023 1)).map Prod.fst))
            ((bucketRows [(⟨2023, 1, 3⟩, [1]), (⟨2023, 1, 4⟩, [2])]
              (quarterLabel 2023 1)).map (colVal 0))
    ∧ (bucketRows [(⟨2023, 1, 3⟩, [1]), (⟨2023, 1, 4⟩, [2])] (quarterLabel 2023 1) ≠ [] →
        (elapsedDays ((bucketRows [(⟨2023, 1, 3⟩, [1]), (⟨2023, 1, 4⟩, [2])]
          (quarterLabel 2023 1)).map Prod.fst)).headD 1 = 0) :=
  c5_trend_slope_ols [⟨2023, 1, 3⟩, ⟨2023, 1, 4⟩] [1, 2]
    [(⟨2023, 1, 3⟩, [1]), (⟨2023, 1, 4⟩, [2])] (quarterLabel 2023 1) 0 rfl

/-! ## Claim C4 -/

theorem digitVal?_digitChar (k : Nat) (hk : k < 10) : digitVal? (digitChar k) = some k := by
  interval_cases k <;> rfl

theorem digitChar_mem_digits (k : Nat) :
    digitChar k ∈ ['0', '1', '2', '3', '4', '5', '6', '7', '8', '9'] := by
  unfold digitChar
  split <;> simp

theorem natToDigitsAux_all_digit :
    ∀ fuel n c, c ∈ natToDigitsAux fuel n →
      c ∈ ['0', '1', '2', '3', '4', '5', '6', '7', '8', '9'] := by
  intro fuel
  induction fuel with
  | zero =>
    intro n c hc
    simp [natToDigitsAux] at hc
  | succ f ih =>
    intro n c hc
    unfold natToDigitsAux at hc
    by_cases h : n < 10
    · rw [if_pos h] at hc
      rw [List.mem_singleton.mp hc]
      exact digitChar_mem_digits n
    · rw [if_neg h] at hc
      rcases List.mem_append.mp hc with h1 | h2
      · exact ih _ c h1
      · rw [List.mem_singleton.mp h2]
        exact digitChar_mem_digits (n % 10)

theorem natToDigitsAux_ne_nil (f n : Nat) (hf : 0 < f) : natToDigitsAux f n ≠ [] := by
  rcases f with _ | f'
  · omega
  · unfold natToDigitsAux
    by_cases h : n < 10
    · rw [if_pos h]
      simp
    · rw [if_neg h]
      simp

theorem digitsToNatAux_append (l1 l2 : List Char) : ∀ acc : Nat,
    digitsToNatAux (l1 ++ l2) acc
      = match digitsToNatAux l1 acc with
        | none => none
        | some m => digitsToNatAux l2 m := by
  induction l1 with
  | nil => intro acc; rfl
  | cons c cs ih =>
    intro acc
    rw [List.cons_append]
    cases hd : digitVal? c with
    | none => simp [digitsToNatAux, hd]
    | some d =>
      simp only [digitsToNatAux, hd]
      exact ih _

theorem digitsToNatAux_natToDigitsAux : ∀ fuel n acc, n < fuel →
    digitsToNatAux (natToDigitsAux fuel n) acc
      = some (acc * 10 ^ (natToDigitsAux fuel n).length + n) := by
  intro fuel
  induction fuel with
  | zero =>
    intro n acc h
    exact absurd h (Nat.not_lt_zero n)
  | succ f ih =>
    intro n acc h
    unfold natToDigitsAux
    by_cases h10 : n < 10
    · rw [if_pos h10]
      have hd : digitVal? (digitChar n) = some n := digitVal?_digitChar n h10
      simp [digitsToNatAux, hd]
    · rw [if_neg h10]
      have hlt : n / 10 < f := by
        have hx : n / 10 < n := Nat.div_lt_self (by omega) (by omega)
        omega
      rw [digitsToNatAux_append]
      rw [ih (n / 10) acc hlt]
      have hd : digitVal? (digitChar (n % 10)) = some (n % 10) :=
        digitVal?_digitChar _ (Nat.mod_lt n (by omega))
      simp only [digitsToNatAux, hd]
      rw [List.length_append, List.length_singleton]
      congr 1
      have hdm : n / 10 * 10 + n % 10 = n := by omega
      calc (acc * 10 ^ (natToDigitsAux f (n / 10)).length + n / 10) * 10 + n % 10
          = acc * (10 ^ (natToDigitsAux f (n / 10)).length * 10) + (n / 10 * 10 + n % 10) := by
            ring
        _ = acc * 10 ^ ((natToDigitsAux f (n / 10)).length + 1) + n := by
            rw [hdm, pow_succ]

theorem digitsToNat?_natStr (n : Nat) : digitsToNat? (natStr n) = some n := by
  unfold digitsToNat? natStr
  have hne := natToDigitsAux_ne_nil (n + 1) n (Nat.succ_pos n)
  rw [if_neg (by simpa [List.isEmpty_iff] using hne)]
  have hv := digitsToNatAux_natToDigitsAux (n + 1) n 0 (Nat.lt_succ_self n)
  simpa using hv

theorem natStr_no_underscore (n : Nat) : '_' ∉ natStr n := by
  intro h
  have hmem := natToDigitsAux_all_digit (n + 1) n '_' h
  exact absurd hmem (by decide)

theorem natStr_no_q (n : Nat) : 'Q' ∉ natStr n := by
  intro h
  have hmem := natToDigitsAux_all_digit (n + 1) n 'Q' h
  exact absurd hmem (by decide)

theorem splitOnUnderscore_no_sep (b : List Char) (hb : '_' ∉ b) :
    splitOnUnderscore b = [b] := by
  induction b with
  | nil => rfl
  | cons c cs ih =>
    have hc : ¬ (c = '_') := fun h => hb (by rw [h]; exact List.mem_cons_self _ _)
    have hcs : '_' ∉ cs := fun h => hb (List.mem_cons.mpr (Or.inr h))
    unfold splitOnUnderscore
    rw [if_neg hc, ih hcs]

theorem splitOnUnderscore_append (a b : List Char) (ha : '_' ∉ a) :
    splitOnUnderscore (a ++ '_' :: b) = a :: splitOnUnderscore b := by
  induction a with
  | nil =>
    rw [List.nil_append]
    conv_lhs => rw [splitOnUnderscore]
    rw [if_pos rfl]
  | cons c cs ih =>
    have hc : ¬ (c = '_') := fun h => ha (by rw [h]; exact List.mem_cons_self _ _)
    have hcs : '_' ∉ cs := fun h => ha (List.mem_cons.mpr (Or.inr h))
    rw [List.cons_append]
    conv_lhs => rw [splitOnUnderscore]
    rw [if_neg hc, ih hcs]

theorem removeQ_q_cons (s : List Char) (hs : 'Q' ∉ s) : removeQ ('Q' :: s) = s := by
  unfold removeQ
  rw [List.filter_cons]
  rw [if_neg (by simp)]
  apply List.filter_eq_self.mpr
  intro c hc
  have : ¬ (c = 'Q') := fun h => hs (by rw [← h]; exact hc)
  simpa using this

/-- Parsing the produced quarter label recovers the (year, bucket) pair. -/
theorem quarterSortKey_quarterLabel (y qn : Nat) :
    quarterSortKey (quarterLabel y qn) = some (y, qn) := by
  unfold quarterSortKey quarterLabel
  rw [splitOnUnderscore_append _ _ (natStr_no_underscore y)]
  rw [splitOnUnderscore_no_sep ('Q' :: natStr qn) (by
    intro h
    rcases List.mem_cons.mp h with h' | h'
    · exact absurd h' (by decide)
    · exact natStr_no_underscore qn h')]
  simp only [removeQ_q_cons (natStr qn) (natStr_no_q qn), digitsToNat?_natStr]

/-- C4: the quarter-bucket assignment is total and deterministic — every
calendar date (month in 1..12) maps to the single label (year, bucket) with
bucket = ((month − 1) div 4) + 1 ∈ {1, 2, 3}, and `_quarter_sort_key` parses
the produced label 'YYYY_Qn' back to exactly (year, bucket) (round-trip). -/
theorem c4_quarter_bucket_total_roundtrip (d : SDate)
    (h1 : 1 ≤ d.month) (h2 : d.month ≤ 12) :
    (bucketNum d.month = 1 ∨ bucketNum d.month = 2 ∨ bucketNum d.month = 3)
    ∧ quarterSortKey (make_4month_quarters d) = some (d.year, bucketNum d.month) := by
  constructor
  · unfold bucketNum
    omega
  · unfold make_4month_quarters
    exact quarterSortKey_quarterLabel d.year (bucketNum d.month)

/-- Witness for C4: the theorem applied to the concrete date 2023-05-02
(month 5, bucket 2). -/
theorem c4_witness :
    (bucketNum (5 : Nat) = 1 ∨ bucketNum (5 : Nat) = 2 ∨ bucketNum (5 : Nat) = 3)
    ∧ quarterSortKey (make_4month_quarters ⟨2023, 5, 2⟩)
        = some (2023, bucketNum (5 : Nat)) :=
  c4_quarter_bucket_total_roundtrip ⟨2023, 5, 2⟩ (by decide) (by decide)
